import Mathlib

/-
Verification of the paper-02 monetary-regimes analysis pipeline.

The repository consists of three Python analysis scripts
(regime_welfare.py, regime_sweep.py, regime_charts.py) that read
terminal-state and time-series CSV tables per (regime, BDP sweep level),
derive welfare metrics, aggregate by sweep level, and report argmax-based
summaries.  This file is a shallow embedding of the data model and the
operations of those scripts, over exact rational arithmetic, together
with theorems settling the specification claims.

Modelling conventions:
  - CSV numeric cells are rationals; a possibly-NaN cell is an Option
    (none = NaN), and a possibly-absent column is a further Option layer.
  - The on-disk results tree for one regime is a function from sweep
    level to Option (list of rows); none models a missing file
    (FileNotFoundError / fpath.exists() failing).
  - pandas .std() (ddof = 1) is the square root of the sample variance;
    the variance is rational-computable, so aggregates store the sample
    variance (none when fewer than two values, as pandas yields NaN
    there), and theorems about std ordering use Real.sqrt of it.
-/

namespace Paper02

/-- One row of a terminal-state CSV: one simulation seed at its last
month.  Fields are the columns the scripts read.  EffectiveBDP may be
absent as a column (outer none) or present but NaN (inner none). -/
structure TermRow where
  unemployment : ℚ
  marketWage : ℚ
  priceLevel : ℚ
  totalAdoption : ℚ
  inflation : ℚ
  exRate : ℚ
  refRate : ℚ
  npl : ℚ
  effectiveBDP : Option (Option ℚ)
  deriving DecidableEq

/-- regime_welfare.py line 23: POPULATION = 100_000. -/
def POPULATION : ℤ := 100000

/-- regime_welfare.py line 24: MPC = 0.82. -/
def MPC : ℚ := 82 / 100

/-- Both sweep scripts, BDP_LEVELS = list(range(0, 5001, 250)):
the 21 levels 0, 250, ..., 5000. -/
def BDP_LEVELS : List ℚ := (List.range 21).map (fun i : ℕ => 250 * (i : ℚ))

/-- regime_charts.py line 32: BDP_SHOW = [0, 2000, 3000]. -/
def BDP_SHOW : List ℚ := [0, 2000, 3000]

/-- Python int() applied to a real value: truncation toward zero. -/
def truncToZero (q : ℚ) : ℤ := if 0 ≤ q then ⌊q⌋ else ⌈q⌉

/-- regime_welfare.py line 42: n_emp = int((1 - unemp) * POPULATION). -/
def nEmp (unemp : ℚ) : ℤ := truncToZero ((1 - unemp) * (POPULATION : ℚ))

/-- regime_welfare.py line 43: n_unemp = POPULATION - n_emp. -/
def nUnemp (unemp : ℚ) : ℤ := POPULATION - nEmp unemp

/-- regime_welfare.py lines 46-48:
actual_bdp = r.get('EffectiveBDP', bdp_amount); if pd.isna(actual_bdp):
actual_bdp = bdp_amount.  The .get yields the default when the column is
absent, and the isna test replaces a NaN cell by the default. -/
def actualBDP (eff : Option (Option ℚ)) (bdpAmount : ℚ) : ℚ :=
  let got : Option ℚ := eff.getD (some bdpAmount)
  match got with
  | none => bdpAmount
  | some v => v

/-- regime_sweep.py lines 36-38: eff_bdp = row.get('EffectiveBDP', bdp);
if pd.isna(eff_bdp): eff_bdp = bdp.  Same fallback, written in
load_sweep. -/
def sweepEffBDP (eff : Option (Option ℚ)) (bdp : ℚ) : ℚ :=
  let got : Option ℚ := eff.getD (some bdp)
  match got with
  | none => bdp
  | some v => v

/-- regime_welfare.py line 50: y_emp = wage + actual_bdp. -/
def yEmp (r : TermRow) (bdpAmount : ℚ) : ℚ :=
  r.marketWage + actualBDP r.effectiveBDP bdpAmount

/-- regime_welfare.py line 51: y_unemp = actual_bdp. -/
def yUnemp (r : TermRow) (bdpAmount : ℚ) : ℚ :=
  actualBDP r.effectiveBDP bdpAmount

/-- regime_welfare.py line 53: total_income = n_emp * y_emp + n_unemp * y_unemp. -/
def totalIncome (r : TermRow) (bdpAmount : ℚ) : ℚ :=
  (nEmp r.unemployment : ℚ) * yEmp r bdpAmount
    + (nUnemp r.unemployment : ℚ) * yUnemp r bdpAmount

/-- regime_welfare.py line 54, the divisor max(0.01, price). -/
def priceDivisor (r : TermRow) : ℚ := max (1 / 100) r.priceLevel

/-- regime_welfare.py line 54: real_consumption = total_income * MPC / max(0.01, price). -/
def realConsumption (r : TermRow) (bdpAmount : ℚ) : ℚ :=
  totalIncome r bdpAmount * MPC / priceDivisor r

/-- regime_welfare.py line 55: real_cons_pc = real_consumption / POPULATION. -/
def realConsPc (r : TermRow) (bdpAmount : ℚ) : ℚ :=
  realConsumption r bdpAmount / (POPULATION : ℚ)

/-- regime_welfare.py lines 58-61: the two-class Gini, zero unless
total_income > 0 and both classes are non-empty. -/
def gini (r : TermRow) (bdpAmount : ℚ) : ℚ :=
  if 0 < totalIncome r bdpAmount ∧ 0 < nEmp r.unemployment ∧ 0 < nUnemp r.unemployment then
    ((nEmp r.unemployment : ℚ) * (nUnemp r.unemployment : ℚ)
        * |yEmp r bdpAmount - yUnemp r bdpAmount|)
      / ((POPULATION : ℚ) * totalIncome r bdpAmount)
  else 0

/-- pandas Series.mean over a non-empty column; on the empty list this
model yields 0 where pandas yields NaN (no claim depends on the empty
case). -/
def mean (xs : List ℚ) : ℚ := xs.sum / (xs.length : ℚ)

/-- Sum of squared deviations from the mean. -/
def sumSqDev (xs : List ℚ) : ℚ := (xs.map (fun x => (x - mean xs) ^ 2)).sum

/-- The sample variance with ddof = 1, the square of pandas .std();
junk value 0 when fewer than two entries (pandas yields NaN there,
modelled by sampleVarOpt). -/
def sampleVar (xs : List ℚ) : ℚ := sumSqDev xs / ((xs.length - 1 : ℕ) : ℚ)

/-- pandas .std() squared as recorded in aggregate tables: none models
the NaN that pandas produces for groups of fewer than two values. -/
def sampleVarOpt (xs : List ℚ) : Option ℚ :=
  if xs.length ≤ 1 then none else some (sampleVar xs)

/-- pandas .std() itself: the square root of the sample variance
(meaningful when the list has at least two entries). -/
noncomputable def sampleStd (xs : List ℚ) : ℝ := Real.sqrt ((sampleVar xs : ℚ) : ℝ)

/-- The per-seed welfare record appended by compute_welfare
(regime_welfare.py lines 63-68). -/
structure WelfareRow where
  real_cons_pc : ℚ
  gini : ℚ
  adoption : ℚ
  unemployment : ℚ
  deriving DecidableEq

/-- One iteration of the compute_welfare row loop. -/
def computeWelfareRow (r : TermRow) (bdpAmount : ℚ) : WelfareRow :=
  { real_cons_pc := realConsPc r bdpAmount
  , gini := gini r bdpAmount
  , adoption := r.totalAdoption * 100
  , unemployment := r.unemployment * 100 }

/-- regime_welfare.py lines 32-69: compute_welfare maps the row loop
over the terminal table, in row order. -/
def compute_welfare (df : List TermRow) (bdpAmount : ℚ) : List WelfareRow :=
  df.map (fun r => computeWelfareRow r bdpAmount)

/-- A concrete terminal-state row used by the spec's worked scenario:
unemployment 0.10, market wage 3000, price level 1.0, no EffectiveBDP
column.  The remaining metric fields are arbitrary sample values. -/
def exampleRowA : TermRow :=
  { unemployment := 1 / 10
  , marketWage := 3000
  , priceLevel := 1
  , totalAdoption := 1 / 2
  , inflation := 2 / 100
  , exRate := 43 / 10
  , refRate := 5 / 100
  , npl := 3 / 100
  , effectiveBDP := none }

/-- A second concrete terminal-state row, differing from exampleRowA. -/
def exampleRowB : TermRow :=
  { unemployment := 2 / 10
  , marketWage := 2800
  , priceLevel := 11 / 10
  , totalAdoption := 9 / 10
  , inflation := 4 / 100
  , exRate := 44 / 10
  , refRate := 6 / 100
  , npl := 4 / 100
  , effectiveBDP := none }

/-- C1: on a terminal-state row with unemployment 0.10, market wage
3000, price level 1.0, no EffectiveBDP override, and nominal transfer
2000, the welfare derivation yields n_emp = 90000, n_unemp = 10000,
y_emp = 5000, y_unemp = 2000, total_income = 470000000, real consumption
per capita exactly 3854, and Gini exactly
(90000 * 10000 * 3000) / (100000 * 470000000). -/
theorem claim_C1_concrete_scenario :
    nEmp (1 / 10) = 90000 ∧
    nUnemp (1 / 10) = 10000 ∧
    yEmp exampleRowA 2000 = 5000 ∧
    yUnemp exampleRowA 2000 = 2000 ∧
    totalIncome exampleRowA 2000 = 470000000 ∧
    realConsPc exampleRowA 2000 = 3854 ∧
    gini exampleRowA 2000 = (90000 * 10000 * 3000) / ((100000 : ℚ) * 470000000) := by
  have hu : exampleRowA.unemployment = 1 / 10 := rfl
  have hp : exampleRowA.priceLevel = 1 := rfl
  have hb : actualBDP exampleRowA.effectiveBDP 2000 = 2000 := rfl
  have hne : nEmp (1 / 10) = 90000 := by
    have h90 : ((1 : ℚ) - 1 / 10) * (POPULATION : ℚ) = 90000 := by
      norm_num [POPULATION]
    unfold nEmp truncToZero
    rw [h90, if_pos (by norm_num : (0 : ℚ) ≤ 90000)]
    norm_num
  have hnu : nUnemp (1 / 10) = 10000 := by
    unfold nUnemp
    rw [hne]
    norm_num [POPULATION]
  have hye : yEmp exampleRowA 2000 = 5000 := by
    unfold yEmp
    rw [hb]
    norm_num [exampleRowA]
  have hyu : yUnemp exampleRowA 2000 = 2000 := hb
  have hti : totalIncome exampleRowA 2000 = 470000000 := by
    unfold totalIncome
    rw [hu, hne, hnu, hye, hyu]
    norm_num
  have hrc : realConsPc exampleRowA 2000 = 3854 := by
    unfold realConsPc realConsumption priceDivisor
    rw [hti, hp, show max (1 / 100 : ℚ) 1 = 1 from max_eq_right (by norm_num)]
    norm_num [MPC, POPULATION]
  have hg : gini exampleRowA 2000 = (90000 * 10000 * 3000) / ((100000 : ℚ) * 470000000) := by
    unfold gini
    rw [hu, hne, hnu, hti, hye, hyu, if_pos (by norm_num)]
    norm_num [POPULATION]
  exact ⟨hne, hnu, hye, hyu, hti, hrc, hg⟩

/-- C3: for every unemployment fraction u, the employed count is the
truncation toward zero of (1 - u) * POPULATION, the unemployed count is
the remainder, and the two counts sum to POPULATION exactly. -/
theorem claim_C3_population_split (u : ℚ) :
    nEmp u + nUnemp u = POPULATION ∧
    nEmp u = truncToZero ((1 - u) * (POPULATION : ℚ)) ∧
    nUnemp u = POPULATION - nEmp u := by
  refine ⟨?_, rfl, rfl⟩
  unfold nUnemp
  ring

/-- C4: the transfer amount used in the income computation is the
EffectiveBDP cell when the column is present with a non-NaN value, and
falls back to the nominal sweep amount when the column is absent or the
cell is NaN; the sweep loader applies the identical fallback, and both
y_unemp and the loader's recorded EffectiveBDP are that value. -/
theorem claim_C4_effective_bdp_fallback (eff : Option (Option ℚ)) (b : ℚ) (r : TermRow) :
    actualBDP eff b = (match eff with | some (some v) => v | _ => b) ∧
    sweepEffBDP eff b = actualBDP eff b ∧
    yUnemp r b = actualBDP r.effectiveBDP b := by
  refine ⟨?_, ?_, rfl⟩
  · rcases eff with _ | _ | v <;> rfl
  · rcases eff with _ | _ | v <;> rfl

/-- C8: the divisor of the real-consumption division is
max(0.01, price), which is at least 0.01 and strictly positive for every
price level, so the division is never by zero, and real consumption is
total income times MPC divided by that floored price. -/
theorem claim_C8_price_floor (r : TermRow) (b : ℚ) :
    priceDivisor r = max (1 / 100) r.priceLevel ∧
    (1 / 100 : ℚ) ≤ priceDivisor r ∧
    0 < priceDivisor r ∧
    realConsumption r b = totalIncome r b * MPC / priceDivisor r := by
  refine ⟨rfl, le_max_left _ _, ?_, rfl⟩
  have h : (0 : ℚ) < 1 / 100 := by norm_num
  exact lt_of_lt_of_le h (le_max_left _ _)

/-- One row of the long-format table built by load_sweep
(regime_sweep.py lines 39-48): the terminal metrics rescaled to
percentages, tagged with the sweep level. -/
structure SweepRow where
  bdp : ℚ
  adoption : ℚ
  inflation : ℚ
  unemployment : ℚ
  exRate : ℚ
  refRate : ℚ
  npl : ℚ
  effectiveBDP : ℚ
  deriving DecidableEq

/-- The dict appended for each terminal row in load_sweep. -/
def sweepRowOf (bdp : ℚ) (row : TermRow) : SweepRow :=
  { bdp := bdp
  , adoption := row.totalAdoption * 100
  , inflation := row.inflation * 100
  , unemployment := row.unemployment * 100
  , exRate := row.exRate
  , refRate := row.refRate * 100
  , npl := row.npl * 100
  , effectiveBDP := sweepEffBDP row.effectiveBDP bdp }

/-- The rows contributed by one sweep level in load_sweep: none from a
missing file (printed as MISSING and skipped), else one SweepRow per
terminal row. -/
def sweepChunk (files : ℚ → Option (List TermRow)) (bdp : ℚ) : List SweepRow :=
  match files bdp with
  | none => []
  | some df => df.map (sweepRowOf bdp)

/-- regime_sweep.py lines 25-49: load_sweep concatenates the per-level
chunks over BDP_LEVELS in order. -/
def load_sweep (files : ℚ → Option (List TermRow)) : List SweepRow :=
  BDP_LEVELS.flatMap (sweepChunk files)

/-- The Adoption column of the group of rows at one BDP value, as
selected by data.groupby('BDP')['Adoption']. -/
def groupVals (rows : List SweepRow) (b : ℚ) : List ℚ :=
  (rows.filter (fun r => decide (r.bdp = b))).map (fun r => r.adoption)

/-- The sweep levels whose terminal file exists, in BDP_LEVELS order. -/
def loadedLevels (files : ℚ → Option (List TermRow)) : List ℚ :=
  BDP_LEVELS.filter (fun b => (files b).isSome)

/-- One row of the aggregate welfare table wdf (regime_welfare.py lines
81-90).  The std fields record the sample variance: pandas stores its
square root, and every claimed property of a std is an equality or an
order comparison, which the square root preserves. -/
structure WelfareAgg where
  bdp : ℚ
  realConsPcMean : ℚ
  realConsPcStd : Option ℚ
  giniMean : ℚ
  giniStd : Option ℚ
  adoptionMean : ℚ
  unemploymentMean : ℚ
  deriving DecidableEq

/-- The welfare dict appended for one loaded sweep level. -/
def welfareEntry (bdp : ℚ) (df : List TermRow) : WelfareAgg :=
  let w := compute_welfare df bdp
  { bdp := bdp
  , realConsPcMean := mean (w.map (fun x => x.real_cons_pc))
  , realConsPcStd := sampleVarOpt (w.map (fun x => x.real_cons_pc))
  , giniMean := mean (w.map (fun x => x.gini))
  , giniStd := sampleVarOpt (w.map (fun x => x.gini))
  , adoptionMean := mean (w.map (fun x => x.adoption))
  , unemploymentMean := mean (w.map (fun x => x.unemployment)) }

/-- regime_welfare.py lines 75-92, one regime: try to load each level;
a FileNotFoundError is passed over, every loaded level appends its
aggregate entry. -/
def welfareTable (files : ℚ → Option (List TermRow)) : List WelfareAgg :=
  BDP_LEVELS.filterMap (fun bdp => (files bdp).map (welfareEntry bdp))

/-- A results tree with the file of one sweep level removed. -/
def updateNone (files : ℚ → Option (List TermRow)) (lvl : ℚ) :
    ℚ → Option (List TermRow) :=
  fun b => if b = lvl then none else files b

/-- regime_charts.py lines 54-62: inside one try block, the PLN series
is loaded first and the EUR series second; a FileNotFoundError from
either load skips the whole panel column.  The table type is abstract:
the control flow does not inspect the contents. -/
def load_pair {α : Type} (fsPln fsEur : ℚ → Option α) (bdp : ℚ) : Option (α × α) :=
  match fsPln bdp, fsEur bdp with
  | some p, some e => some (p, e)
  | _, _ => none

/-- The (level, series pair) columns actually drawn by Figure 1. -/
def figure1PanelData {α : Type} (fsPln fsEur : ℚ → Option α) : List (ℚ × (α × α)) :=
  BDP_SHOW.filterMap (fun bdp => (load_pair fsPln fsEur bdp).map (fun pe => (bdp, pe)))

@[simp] theorem welfareEntry_bdp (b : ℚ) (df : List TermRow) : (welfareEntry b df).bdp = b := rfl

@[simp] theorem sweepRowOf_bdp (b : ℚ) (r : TermRow) : (sweepRowOf b r).bdp = b := rfl

/-- The two counts always sum to the population (used by C2 and C3). -/
theorem nEmp_add_nUnemp (u : ℚ) : nEmp u + nUnemp u = POPULATION := by
  unfold nUnemp
  ring

/-- C2: for a valid two-class split (non-negative market wage and
non-negative effective transfer), the Gini computed per terminal row
lies in [0, 1], and it is exactly 0 whenever total income is
non-positive or either class is empty. -/
theorem claim_C2_gini_bounds (r : TermRow) (b : ℚ)
    (hw : 0 ≤ r.marketWage) (hd : 0 ≤ actualBDP r.effectiveBDP b) :
    0 ≤ gini r b ∧ gini r b ≤ 1 ∧
      (¬(0 < totalIncome r b ∧ 0 < nEmp r.unemployment ∧ 0 < nUnemp r.unemployment) →
        gini r b = 0) := by
  unfold gini
  by_cases hc : 0 < totalIncome r b ∧ 0 < nEmp r.unemployment ∧ 0 < nUnemp r.unemployment
  · obtain ⟨hT, ha, hbn⟩ := hc
    rw [if_pos ⟨hT, ha, hbn⟩]
    have hA : (0 : ℚ) < (nEmp r.unemployment : ℚ) := by exact_mod_cast ha
    have hB : (0 : ℚ) < (nUnemp r.unemployment : ℚ) := by exact_mod_cast hbn
    have hABint : nEmp r.unemployment + nUnemp r.unemployment = POPULATION :=
      nEmp_add_nUnemp r.unemployment
    have hAB : (nEmp r.unemployment : ℚ) + (nUnemp r.unemployment : ℚ) = (POPULATION : ℚ) := by
      exact_mod_cast hABint
    have hPpos : (0 : ℚ) < (POPULATION : ℚ) := by norm_num [POPULATION]
    have hden : (0 : ℚ) < (POPULATION : ℚ) * totalIncome r b := mul_pos hPpos hT
    have habs : |yEmp r b - yUnemp r b| = r.marketWage := by
      have hdiff : yEmp r b - yUnemp r b = r.marketWage := by
        unfold yEmp yUnemp
        ring
      rw [hdiff, abs_of_nonneg hw]
    have hTI : totalIncome r b
        = (nEmp r.unemployment : ℚ) * (r.marketWage + actualBDP r.effectiveBDP b)
          + (nUnemp r.unemployment : ℚ) * actualBDP r.effectiveBDP b := by
      unfold totalIncome yEmp yUnemp
      ring
    refine ⟨?_, ?_, ?_⟩
    · apply div_nonneg _ hden.le
      exact mul_nonneg (mul_nonneg hA.le hB.le) (abs_nonneg _)
    · rw [div_le_one hden, habs, hTI, ← hAB]
      nlinarith [mul_nonneg (mul_nonneg hA.le hA.le) hw,
        mul_nonneg (sq_nonneg ((nEmp r.unemployment : ℚ) + (nUnemp r.unemployment : ℚ))) hd]
    · intro hn
      exact absurd ⟨hT, ha, hbn⟩ hn
  · rw [if_neg hc]
    exact ⟨le_refl 0, by norm_num, fun _ => rfl⟩

/-- Witness for C2 at the worked scenario row with nominal transfer
2000: the hypotheses hold and the bounds follow. -/
theorem claim_C2_gini_bounds_witness :
    (0 ≤ exampleRowA.marketWage) ∧ (0 ≤ actualBDP exampleRowA.effectiveBDP 2000) ∧
      (0 ≤ gini exampleRowA 2000 ∧ gini exampleRowA 2000 ≤ 1 ∧
        (¬(0 < totalIncome exampleRowA 2000 ∧ 0 < nEmp exampleRowA.unemployment ∧
            0 < nUnemp exampleRowA.unemployment) →
          gini exampleRowA 2000 = 0)) := by
  have h2000 : actualBDP exampleRowA.effectiveBDP 2000 = 2000 := rfl
  have hw : (0 : ℚ) ≤ exampleRowA.marketWage := by norm_num [exampleRowA]
  have hd : (0 : ℚ) ≤ actualBDP exampleRowA.effectiveBDP 2000 := by
    rw [h2000]
    norm_num
  exact ⟨hw, hd, claim_C2_gini_bounds exampleRowA 2000 hw hd⟩

theorem panel_keys {α : Type} (fsPln fsEur : ℚ → Option α) (l : List ℚ) :
    (l.filterMap (fun bdp => (load_pair fsPln fsEur bdp).map (fun pe => (bdp, pe)))).map
        Prod.fst
      = l.filter (fun lvl => (fsPln lvl).isSome && (fsEur lvl).isSome) := by
  induction l with
  | nil => rfl
  | cons a t ih =>
    cases hp : fsPln a with
    | none =>
      have hl : load_pair fsPln fsEur a = none := by
        unfold load_pair
        rw [hp]
      simp [List.filterMap_cons, List.filter_cons, hl, hp, ih]
    | some p =>
      cases he : fsEur a with
      | none =>
        have hl : load_pair fsPln fsEur a = none := by
          unfold load_pair
          rw [hp, he]
        simp [List.filterMap_cons, List.filter_cons, hl, hp, he, ih]
      | some e =>
        have hl : load_pair fsPln fsEur a = some (p, e) := by
          unfold load_pair
          rw [hp, he]
        simp [List.filterMap_cons, List.filter_cons, hl, hp, he, ih]

/-- C10: in the time-series chart script, a panel column is drawn
exactly when both the PLN and the EUR file for that level are present;
a present PLN series is dropped whenever the matching EUR file is
absent, and vice versa, because both loads share one exception scope. -/
theorem claim_C10_paired_load_scope (α : Type) (fsPln fsEur : ℚ → Option α) (b : ℚ) :
    (load_pair fsPln fsEur b).isSome = ((fsPln b).isSome && (fsEur b).isSome) ∧
    (figure1PanelData fsPln fsEur).map Prod.fst
      = BDP_SHOW.filter (fun lvl => (fsPln lvl).isSome && (fsEur lvl).isSome) := by
  constructor
  · cases hp : fsPln b <;> cases he : fsEur b <;> simp [load_pair, hp, he]
  · exact panel_keys fsPln fsEur BDP_SHOW

theorem mean_perm {xs ys : List ℚ} (h : xs.Perm ys) : mean xs = mean ys := by
  unfold mean
  rw [h.sum_eq, h.length_eq]

theorem sumSqDev_perm {xs ys : List ℚ} (h : xs.Perm ys) : sumSqDev xs = sumSqDev ys := by
  unfold sumSqDev
  rw [mean_perm h]
  exact (h.map (fun x => (x - mean ys) ^ 2)).sum_eq

theorem sampleVar_perm {xs ys : List ℚ} (h : xs.Perm ys) : sampleVar xs = sampleVar ys := by
  unfold sampleVar
  rw [sumSqDev_perm h, h.length_eq]

theorem sampleVarOpt_perm {xs ys : List ℚ} (h : xs.Perm ys) :
    sampleVarOpt xs = sampleVarOpt ys := by
  unfold sampleVarOpt
  rw [h.length_eq, sampleVar_perm h]

theorem sampleStd_perm {xs ys : List ℚ} (h : xs.Perm ys) : sampleStd xs = sampleStd ys := by
  unfold sampleStd
  rw [sampleVar_perm h]

theorem groupVals_perm {rows rows' : List SweepRow} (h : rows.Perm rows') (b : ℚ) :
    (groupVals rows b).Perm (groupVals rows' b) :=
  (h.filter _).map _

/-- C9: the per-group mean, variance and std of the adoption column, and
the welfare-column mean and variance, are invariant under any
permutation of the input row order. -/
theorem claim_C9_aggregation_perm_invariant (rows rows' : List SweepRow)
    (h : rows.Perm rows') (ws ws' : List WelfareRow) (hw : ws.Perm ws') (b : ℚ) :
    mean (groupVals rows b) = mean (groupVals rows' b) ∧
    sampleVarOpt (groupVals rows b) = sampleVarOpt (groupVals rows' b) ∧
    sampleStd (groupVals rows b) = sampleStd (groupVals rows' b) ∧
    mean (ws.map (fun x => x.real_cons_pc)) = mean (ws'.map (fun x => x.real_cons_pc)) ∧
    sampleVarOpt (ws.map (fun x => x.real_cons_pc))
      = sampleVarOpt (ws'.map (fun x => x.real_cons_pc)) := by
  have hg := groupVals_perm h b
  have hm := hw.map (fun x : WelfareRow => x.real_cons_pc)
  exact ⟨mean_perm hg, sampleVarOpt_perm hg, sampleStd_perm hg, mean_perm hm,
    sampleVarOpt_perm hm⟩

/-- Witness for C9: two concrete two-row tables related by a genuine
transposition. -/
theorem claim_C9_aggregation_perm_invariant_witness :
    ([sweepRowOf 0 exampleRowA, sweepRowOf 0 exampleRowB].Perm
        [sweepRowOf 0 exampleRowB, sweepRowOf 0 exampleRowA]) ∧
    ([computeWelfareRow exampleRowA 0, computeWelfareRow exampleRowB 0].Perm
        [computeWelfareRow exampleRowB 0, computeWelfareRow exampleRowA 0]) ∧
    (mean (groupVals [sweepRowOf 0 exampleRowA, sweepRowOf 0 exampleRowB] 0)
        = mean (groupVals [sweepRowOf 0 exampleRowB, sweepRowOf 0 exampleRowA] 0) ∧
      sampleVarOpt (groupVals [sweepRowOf 0 exampleRowA, sweepRowOf 0 exampleRowB] 0)
        = sampleVarOpt (groupVals [sweepRowOf 0 exampleRowB, sweepRowOf 0 exampleRowA] 0) ∧
      sampleStd (groupVals [sweepRowOf 0 exampleRowA, sweepRowOf 0 exampleRowB] 0)
        = sampleStd (groupVals [sweepRowOf 0 exampleRowB, sweepRowOf 0 exampleRowA] 0) ∧
      mean ([computeWelfareRow exampleRowA 0,
              computeWelfareRow exampleRowB 0].map (fun x => x.real_cons_pc))
        = mean ([computeWelfareRow exampleRowB 0,
            computeWelfareRow exampleRowA 0].map (fun x => x.real_cons_pc)) ∧
      sampleVarOpt ([computeWelfareRow exampleRowA 0,
              computeWelfareRow exampleRowB 0].map (fun x => x.real_cons_pc))
        = sampleVarOpt ([computeWelfareRow exampleRowB 0,
            computeWelfareRow exampleRowA 0].map (fun x => x.real_cons_pc))) := by
  have h := List.Perm.swap (sweepRowOf 0 exampleRowB) (sweepRowOf 0 exampleRowA) []
  have hw := List.Perm.swap (computeWelfareRow exampleRowB 0) (computeWelfareRow exampleRowA 0) []
  exact ⟨h, hw, claim_C9_aggregation_perm_invariant _ _ h _ _ hw 0⟩

theorem filter_flatMap_eq {α β : Type} (l : List α) (f : α → List β) (p : β → Bool) :
    (l.flatMap f).filter p = l.flatMap (fun a => (f a).filter p) := by
  induction l with
  | nil => rfl
  | cons a t ih => simp [List.filter_append, ih]

theorem filter_filter_of_imp {α : Type} (l : List α) (p q : α → Bool)
    (himp : ∀ a, p a = true → q a = true) : (l.filter q).filter p = l.filter p := by
  induction l with
  | nil => rfl
  | cons x t ih =>
    cases hq : q x with
    | false =>
      have hp : p x = false := by
        cases hpx : p x
        · rfl
        · rw [himp x hpx] at hq
          cases hq
      simp [List.filter_cons, hq, hp, ih]
    | true =>
      cases hpx : p x <;> simp [List.filter_cons, hq, hpx, ih]

theorem mem_sweepChunk_bdp (files : ℚ → Option (List TermRow)) (b : ℚ) (r : SweepRow)
    (hr : r ∈ sweepChunk files b) : r.bdp = b := by
  unfold sweepChunk at hr
  cases hf : files b with
  | none => rw [hf] at hr; cases hr
  | some df =>
    rw [hf] at hr
    obtain ⟨row, _, rfl⟩ := List.mem_map.mp hr
    rfl

theorem sweepChunk_update (files : ℚ → Option (List TermRow)) (lvl b : ℚ) :
    sweepChunk (updateNone files lvl) b = if b = lvl then [] else sweepChunk files b := by
  unfold sweepChunk updateNone
  by_cases h : b = lvl <;> simp [h]

theorem groupVals_filter_ne (rows : List SweepRow) (lvl b : ℚ) (h : b ≠ lvl) :
    groupVals (rows.filter (fun r => decide (r.bdp ≠ lvl))) b = groupVals rows b := by
  unfold groupVals
  rw [filter_filter_of_imp]
  intro r hr
  have hrb : r.bdp = b := of_decide_eq_true hr
  simp [hrb, h]

theorem welfareTable_update_aux (files : ℚ → Option (List TermRow)) (lvl : ℚ)
    (l : List ℚ) :
    l.filterMap (fun bdp => ((updateNone files lvl) bdp).map (welfareEntry bdp))
      = (l.filterMap (fun bdp => (files bdp).map (welfareEntry bdp))).filter
          (fun e => decide (e.bdp ≠ lvl)) := by
  induction l with
  | nil => rfl
  | cons a t ih =>
    rw [List.filterMap_cons, List.filterMap_cons]
    by_cases ha : a = lvl
    · subst ha
      have hu : updateNone files a a = none := by simp [updateNone]
      rw [hu]
      cases hf : files a with
      | none => simpa using ih
      | some df => simp [List.filter_cons, ih]
    · have hu : updateNone files lvl a = files a := by simp [updateNone, ha]
      rw [hu]
      cases hf : files a with
      | none => simpa using ih
      | some df => simp [List.filter_cons, ha, ih]

/-- C7: removing the input file of one sweep level makes the welfare
aggregate table omit exactly that level, makes the sweep loader drop
exactly that level's rows, and leaves every other level's group of
values (hence its aggregates) unchanged; the load is never fatal. -/
theorem claim_C7_missing_file_omits_level (files : ℚ → Option (List TermRow)) (lvl : ℚ) :
    welfareTable (updateNone files lvl)
      = (welfareTable files).filter (fun e => decide (e.bdp ≠ lvl)) ∧
    load_sweep (updateNone files lvl)
      = (load_sweep files).filter (fun r => decide (r.bdp ≠ lvl)) ∧
    ∀ b : ℚ, b = lvl ∨
      groupVals (load_sweep (updateNone files lvl)) b = groupVals (load_sweep files) b := by
  have hsweep : load_sweep (updateNone files lvl)
      = (load_sweep files).filter (fun r => decide (r.bdp ≠ lvl)) := by
    unfold load_sweep
    rw [filter_flatMap_eq]
    apply congrArg
    funext b
    rw [sweepChunk_update]
    by_cases hb : b = lvl
    · rw [if_pos hb]
      subst hb
      symm
      rw [List.filter_eq_nil_iff]
      intro r hr
      simp [mem_sweepChunk_bdp files b r hr]
    · rw [if_neg hb]
      symm
      rw [List.filter_eq_self]
      intro r hr
      have := mem_sweepChunk_bdp files b r hr
      simp [this, hb]
  refine ⟨welfareTable_update_aux files lvl BDP_LEVELS, hsweep, ?_⟩
  intro b
  by_cases hb : b = lvl
  · exact Or.inl hb
  · right
    rw [hsweep]
    exact groupVals_filter_ne (load_sweep files) lvl b hb

/-- The scanning step of pandas Series.idxmax over (index, value) pairs:
the running best is replaced only on a strict increase, so the first
occurrence of the maximum wins. -/
def idxmaxFrom (best : ℚ × ℚ) (l : List (ℚ × ℚ)) : ℚ × ℚ :=
  match l with
  | [] => best
  | kv :: t => if best.2 < kv.2 then idxmaxFrom kv t else idxmaxFrom best t

/-- pandas Series.idxmax with skipna: none values (NaN) are ignored, the
index of the first maximal remaining value is returned, and an all-NaN
or empty series has no answer. -/
def idxmax (entries : List (ℚ × Option ℚ)) : Option ℚ :=
  match entries.filterMap (fun kv => kv.2.map (fun v => (kv.1, v))) with
  | [] => none
  | p :: t => some (idxmaxFrom p t).1

theorem idxmaxFrom_mem (best : ℚ × ℚ) (l : List (ℚ × ℚ)) :
    idxmaxFrom best l = best ∨ idxmaxFrom best l ∈ l := by
  induction l generalizing best with
  | nil => exact Or.inl rfl
  | cons kv t ih =>
    by_cases h : best.2 < kv.2
    · have he : idxmaxFrom best (kv :: t) = idxmaxFrom kv t := by
        show (if best.2 < kv.2 then idxmaxFrom kv t else idxmaxFrom best t) = _
        rw [if_pos h]
      rw [he]
      rcases ih kv with h1 | h1
      · rw [h1]
        exact Or.inr (List.mem_cons_self kv t)
      · exact Or.inr (List.mem_cons_of_mem kv h1)
    · have he : idxmaxFrom best (kv :: t) = idxmaxFrom best t := by
        show (if best.2 < kv.2 then idxmaxFrom kv t else idxmaxFrom best t) = _
        rw [if_neg h]
      rw [he]
      rcases ih best with h1 | h1
      · exact Or.inl h1
      · exact Or.inr (List.mem_cons_of_mem kv h1)

theorem idxmaxFrom_ge (best : ℚ × ℚ) (l : List (ℚ × ℚ)) :
    best.2 ≤ (idxmaxFrom best l).2 ∧ ∀ p ∈ l, p.2 ≤ (idxmaxFrom best l).2 := by
  induction l generalizing best with
  | nil => exact ⟨le_refl _, fun p hp => absurd hp (List.not_mem_nil p)⟩
  | cons kv t ih =>
    by_cases h : best.2 < kv.2
    · have he : idxmaxFrom best (kv :: t) = idxmaxFrom kv t := by
        show (if best.2 < kv.2 then idxmaxFrom kv t else idxmaxFrom best t) = _
        rw [if_pos h]
      rw [he]
      obtain ⟨h1, h2⟩ := ih kv
      refine ⟨le_of_lt (lt_of_lt_of_le h h1), fun p hp => ?_⟩
      rcases List.mem_cons.mp hp with rfl | hp2
      · exact h1
      · exact h2 p hp2
    · have he : idxmaxFrom best (kv :: t) = idxmaxFrom best t := by
        show (if best.2 < kv.2 then idxmaxFrom kv t else idxmaxFrom best t) = _
        rw [if_neg h]
      rw [he]
      obtain ⟨h1, h2⟩ := ih best
      refine ⟨h1, fun p hp => ?_⟩
      rcases List.mem_cons.mp hp with rfl | hp2
      · exact le_trans (le_of_not_lt h) h1
      · exact h2 p hp2

theorem idxmax_spec (entries : List (ℚ × Option ℚ)) (k₀ : ℚ) (v₀ : ℚ)
    (h : (k₀, some v₀) ∈ entries) :
    ∃ k v, idxmax entries = some k ∧ (k, some v) ∈ entries ∧
      ∀ p : ℚ × ℚ, (p.1, some p.2) ∈ entries → p.2 ≤ v := by
  have hmem : ∀ q : ℚ × ℚ,
      q ∈ entries.filterMap (fun kv => kv.2.map (fun v => (kv.1, v)))
        ↔ (q.1, some q.2) ∈ entries := by
    rintro ⟨qk, qv⟩
    rw [List.mem_filterMap]
    constructor
    · rintro ⟨⟨k1, w⟩, hkv, hq⟩
      cases w with
      | none => simp at hq
      | some w0 =>
        simp only [Option.map_some', Option.some.injEq, Prod.mk.injEq] at hq
        obtain ⟨rfl, rfl⟩ := hq
        exact hkv
    · intro hq
      exact ⟨(qk, some qv), hq, rfl⟩
  have h0 : (k₀, v₀) ∈ entries.filterMap (fun kv => kv.2.map (fun v => (kv.1, v))) :=
    (hmem (k₀, v₀)).mpr h
  cases hl : entries.filterMap (fun kv => kv.2.map (fun v => (kv.1, v))) with
  | nil =>
    rw [hl] at h0
    cases h0
  | cons p t =>
    have hidx : idxmax entries = some (idxmaxFrom p t).1 := by
      unfold idxmax
      rw [hl]
    refine ⟨(idxmaxFrom p t).1, (idxmaxFrom p t).2, hidx, ?_, ?_⟩
    · have hm : idxmaxFrom p t ∈ p :: t := by
        rcases idxmaxFrom_mem p t with h1 | h1
        · rw [h1]
          exact List.mem_cons_self p t
        · exact List.mem_cons_of_mem p h1
      rw [← hl] at hm
      exact (hmem _).mp hm
    · intro q hq
      have hq2 : q ∈ p :: t := by
        rw [← hl]
        exact (hmem q).mpr hq
      obtain ⟨h1, h2⟩ := idxmaxFrom_ge p t
      rcases List.mem_cons.mp hq2 with rfl | hq3
      · exact h1
      · exact h2 q hq3

/-- The per-level series stds = data.groupby('BDP')['Adoption'].std()
(regime_sweep.py line 184).  The groupby keys are the distinct BDP
values present in the data, which for load_sweep output are the loaded
non-empty levels in BDP_LEVELS order.  The stored value is the sample
variance, the square of pandas .std(); a group of fewer than two rows
stores none, exactly where pandas stores NaN.  idxmax over these values
agrees with idxmax over the stds because the square root is strictly
monotone; the theorems below state the maximality in terms of the std
itself. -/
def adoptionVarByLevel (files : ℚ → Option (List TermRow)) : List (ℚ × Option ℚ) :=
  (BDP_LEVELS.filter (fun b => !(groupVals (load_sweep files) b).isEmpty)).map
    (fun b => (b, sampleVarOpt (groupVals (load_sweep files) b)))

/-- regime_sweep.py lines 184-186: cp = stds.idxmax(). -/
def criticalPoint (files : ℚ → Option (List TermRow)) : Option ℚ :=
  idxmax (adoptionVarByLevel files)

/-- regime_welfare.py line 220: best = df.loc[df['RealConsPc_mean'].idxmax()],
reported through best['BDP']. -/
def optimalBDP (files : ℚ → Option (List TermRow)) : Option ℚ :=
  idxmax ((welfareTable files).map (fun e => (e.bdp, some e.realConsPcMean)))

theorem bdp_levels_nodup : BDP_LEVELS.Nodup := by
  unfold BDP_LEVELS
  have hinj : Function.Injective (fun i : ℕ => 250 * (i : ℚ)) := by
    intro i j hij
    simp only at hij
    have h250 : (250 : ℚ) ≠ 0 := by norm_num
    have := mul_left_cancel₀ h250 hij
    exact_mod_cast this
  exact (List.nodup_range 21).map hinj

theorem zero_mem_bdp_levels : (0 : ℚ) ∈ BDP_LEVELS := by
  unfold BDP_LEVELS
  refine List.mem_map.mpr ⟨0, ?_, ?_⟩
  · exact List.mem_range.mpr (by norm_num)
  · norm_num

theorem groupVals_flatMap_nodup (files : ℚ → Option (List TermRow)) (l : List ℚ)
    (hnd : l.Nodup) (b : ℚ) (hb : b ∈ l) :
    groupVals (l.flatMap (sweepChunk files)) b
      = (sweepChunk files b).map (fun r => r.adoption) := by
  induction l with
  | nil => cases hb
  | cons a t ih =>
    rw [List.flatMap_cons]
    unfold groupVals
    rw [List.filter_append, List.map_append]
    rcases List.mem_cons.mp hb with rfl | hbt
    · have hat : b ∉ t := (List.nodup_cons.mp hnd).1
      have h1 : (sweepChunk files b).filter (fun r => decide (r.bdp = b))
          = sweepChunk files b := by
        rw [List.filter_eq_self]
        intro r hr
        simp [mem_sweepChunk_bdp files b r hr]
      have h2 : (t.flatMap (sweepChunk files)).filter (fun r => decide (r.bdp = b)) = [] := by
        rw [List.filter_eq_nil_iff]
        intro r hr
        obtain ⟨b2, hb2, hr2⟩ := List.mem_flatMap.mp hr
        have hrb := mem_sweepChunk_bdp files b2 r hr2
        simp only [hrb, decide_eq_true_eq]
        exact fun he => hat (he ▸ hb2)
      rw [h1, h2]
      simp
    · have hna : a ∉ t := (List.nodup_cons.mp hnd).1
      have hab : a ≠ b := fun he => hna (he ▸ hbt)
      have h1 : (sweepChunk files a).filter (fun r => decide (r.bdp = b)) = [] := by
        rw [List.filter_eq_nil_iff]
        intro r hr
        have hrb := mem_sweepChunk_bdp files a r hr
        simp only [hrb, decide_eq_true_eq]
        exact hab
      rw [h1]
      have ht := ih (List.nodup_cons.mp hnd).2 hbt
      simpa [groupVals] using ht

theorem groupVals_load_sweep (files : ℚ → Option (List TermRow)) (b : ℚ)
    (hb : b ∈ BDP_LEVELS) :
    groupVals (load_sweep files) b = (sweepChunk files b).map (fun r => r.adoption) :=
  groupVals_flatMap_nodup files BDP_LEVELS bdp_levels_nodup b hb

theorem adoptionVar_entries (files : ℚ → Option (List TermRow))
    (hlen : ∀ b df, files b = some df → 2 ≤ df.length) :
    adoptionVarByLevel files
      = (loadedLevels files).map (fun b => (b, sampleVarOpt (groupVals (load_sweep files) b))) := by
  unfold adoptionVarByLevel loadedLevels
  congr 1
  apply List.filter_congr
  intro b hb
  rw [groupVals_load_sweep files b hb]
  cases hf : files b with
  | none => simp [sweepChunk, hf]
  | some df =>
    have h2 := hlen b df hf
    have hdf : df ≠ [] := by
      intro he
      rw [he] at h2
      simp at h2
    simp [sweepChunk, hf, hdf]

theorem groupVals_length_of_some (files : ℚ → Option (List TermRow)) (b : ℚ)
    (hb : b ∈ BDP_LEVELS) (df : List TermRow) (hf : files b = some df) :
    (groupVals (load_sweep files) b).length = df.length := by
  rw [groupVals_load_sweep files b hb]
  simp [sweepChunk, hf]

/-- C5: under the hypothesis that every loaded terminal file has at
least two seed rows (so that no per-level std is NaN), the critical
point reported by the bifurcation script is a loaded sweep level whose
adoption std is maximal among all loaded levels. -/
theorem claim_C5_critical_point_max_std (files : ℚ → Option (List TermRow))
    (hlen : ∀ b df, files b = some df → 2 ≤ df.length)
    (hne : ∃ b ∈ BDP_LEVELS, (files b).isSome) :
    ∃ cp, criticalPoint files = some cp ∧ cp ∈ loadedLevels files ∧
      ∀ b ∈ loadedLevels files,
        sampleStd (groupVals (load_sweep files) b)
          ≤ sampleStd (groupVals (load_sweep files) cp) := by
  obtain ⟨b₀, hb₀, hs₀⟩ := hne
  have hb₀L : b₀ ∈ loadedLevels files := List.mem_filter.mpr ⟨hb₀, hs₀⟩
  have hent := adoptionVar_entries files hlen
  have hglen : ∀ b ∈ loadedLevels files, 2 ≤ (groupVals (load_sweep files) b).length := by
    intro b hb
    obtain ⟨hbL, hbs⟩ := List.mem_filter.mp hb
    obtain ⟨df, hf⟩ := Option.isSome_iff_exists.mp hbs
    rw [groupVals_length_of_some files b hbL df hf]
    exact hlen b df hf
  have hvo : ∀ b ∈ loadedLevels files,
      sampleVarOpt (groupVals (load_sweep files) b)
        = some (sampleVar (groupVals (load_sweep files) b)) := by
    intro b hb
    unfold sampleVarOpt
    rw [if_neg]
    have := hglen b hb
    omega
  have h0 : (b₀, some (sampleVar (groupVals (load_sweep files) b₀)))
      ∈ adoptionVarByLevel files := by
    rw [hent, ← hvo b₀ hb₀L]
    exact List.mem_map.mpr ⟨b₀, hb₀L, rfl⟩
  obtain ⟨k, v, hcp, hkmem, hbound⟩ := idxmax_spec _ _ _ h0
  rw [hent] at hkmem
  obtain ⟨bk, hbkL, hbk⟩ := List.mem_map.mp hkmem
  have hbk1 : bk = k := congrArg Prod.fst hbk
  subst hbk1
  have hbk2 : sampleVarOpt (groupVals (load_sweep files) bk) = some v :=
    congrArg Prod.snd hbk
  have hveq : sampleVar (groupVals (load_sweep files) bk) = v := by
    have := (hvo bk hbkL).symm.trans hbk2
    exact Option.some.inj this
  refine ⟨bk, hcp, hbkL, ?_⟩
  intro b hb
  have hbent : (b, some (sampleVar (groupVals (load_sweep files) b)))
      ∈ adoptionVarByLevel files := by
    rw [hent, ← hvo b hb]
    exact List.mem_map.mpr ⟨b, hb, rfl⟩
  have hle : sampleVar (groupVals (load_sweep files) b) ≤ v :=
    hbound (b, sampleVar (groupVals (load_sweep files) b)) hbent
  rw [← hveq] at hle
  unfold sampleStd
  apply Real.sqrt_le_sqrt
  exact_mod_cast hle

/-- A concrete two-seed results tree present at every sweep level. -/
def exampleFiles : ℚ → Option (List TermRow) := fun _ => some [exampleRowA, exampleRowB]

/-- Witness for C5 on the concrete results tree. -/
theorem claim_C5_critical_point_max_std_witness :
    (∀ b df, exampleFiles b = some df → 2 ≤ df.length) ∧
    (∃ b ∈ BDP_LEVELS, (exampleFiles b).isSome) ∧
    (∃ cp, criticalPoint exampleFiles = some cp ∧ cp ∈ loadedLevels exampleFiles ∧
      ∀ b ∈ loadedLevels exampleFiles,
        sampleStd (groupVals (load_sweep exampleFiles) b)
          ≤ sampleStd (groupVals (load_sweep exampleFiles) cp)) := by
  have h1 : ∀ b df, exampleFiles b = some df → 2 ≤ df.length := by
    intro b df h
    injection h with h2
    rw [← h2]
    simp
  have h2 : ∃ b ∈ BDP_LEVELS, (exampleFiles b).isSome := ⟨0, zero_mem_bdp_levels, rfl⟩
  exact ⟨h1, h2, claim_C5_critical_point_max_std exampleFiles h1 h2⟩

theorem welfareTable_keys_aux (files : ℚ → Option (List TermRow)) (l : List ℚ) :
    ((l.filterMap (fun bdp => (files bdp).map (welfareEntry bdp))).map (fun e => e.bdp))
      = l.filter (fun b => (files b).isSome) := by
  induction l with
  | nil => rfl
  | cons a t ih =>
    cases hf : files a with
    | none => simp [List.filterMap_cons, List.filter_cons, hf, ih]
    | some df => simp [List.filterMap_cons, List.filter_cons, hf, ih]

theorem welfareTable_keys (files : ℚ → Option (List TermRow)) :
    (welfareTable files).map (fun e => e.bdp) = loadedLevels files :=
  welfareTable_keys_aux files BDP_LEVELS

/-- C6: the optimal BDP reported by the welfare script is the sweep
level of an aggregate-table entry whose mean real consumption per capita
is maximal over all loaded levels, and the table has exactly one entry
per loaded level. -/
theorem claim_C6_optimal_bdp_max_mean (files : ℚ → Option (List TermRow))
    (hne : ∃ b ∈ BDP_LEVELS, (files b).isSome) :
    ∃ e ∈ welfareTable files, optimalBDP files = some e.bdp ∧
      (∀ e2 ∈ welfareTable files, e2.realConsPcMean ≤ e.realConsPcMean) ∧
      (welfareTable files).map (fun x => x.bdp) = loadedLevels files := by
  obtain ⟨b₀, hb₀, hs₀⟩ := hne
  obtain ⟨df₀, hf₀⟩ := Option.isSome_iff_exists.mp hs₀
  have he₀ : welfareEntry b₀ df₀ ∈ welfareTable files := by
    unfold welfareTable
    exact List.mem_filterMap.mpr ⟨b₀, hb₀, by rw [hf₀]; rfl⟩
  have h0 : ((welfareEntry b₀ df₀).bdp, some ((welfareEntry b₀ df₀).realConsPcMean))
      ∈ (welfareTable files).map (fun e => (e.bdp, some e.realConsPcMean)) :=
    List.mem_map.mpr ⟨_, he₀, rfl⟩
  obtain ⟨k, v, hcp, hkmem, hbound⟩ := idxmax_spec _ _ _ h0
  obtain ⟨e, heT, hek⟩ := List.mem_map.mp hkmem
  have h1 : e.bdp = k := congrArg Prod.fst hek
  have h2 : e.realConsPcMean = v := by
    have := congrArg Prod.snd hek
    exact Option.some.inj this
  refine ⟨e, heT, ?_, ?_, welfareTable_keys files⟩
  · unfold optimalBDP
    rw [hcp, h1]
  · intro e2 he2
    have hmem2 : ((e2.bdp, some e2.realConsPcMean))
        ∈ (welfareTable files).map (fun e => (e.bdp, some e.realConsPcMean)) :=
      List.mem_map.mpr ⟨e2, he2, rfl⟩
    have := hbound (e2.bdp, e2.realConsPcMean) hmem2
    rw [h2]
    exact this

/-- Witness for C6 on the concrete results tree. -/
theorem claim_C6_optimal_bdp_max_mean_witness :
    (∃ b ∈ BDP_LEVELS, (exampleFiles b).isSome) ∧
    (∃ e ∈ welfareTable exampleFiles, optimalBDP exampleFiles = some e.bdp ∧
      (∀ e2 ∈ welfareTable exampleFiles, e2.realConsPcMean ≤ e.realConsPcMean) ∧
      (welfareTable exampleFiles).map (fun x => x.bdp) = loadedLevels exampleFiles) := by
  have h2 : ∃ b ∈ BDP_LEVELS, (exampleFiles b).isSome := ⟨0, zero_mem_bdp_levels, rfl⟩
  exact ⟨h2, claim_C6_optimal_bdp_max_mean exampleFiles h2⟩

end Paper02
